import Mathlib

/-!
Shallow embedding of the rttp HTTP server library (Rust) in Lean 4.

Conventions of the embedding:
* Rust `String`/`&str` values and byte buffers are modelled as `List Char`
  (abbreviated `Str`); a `Char` stands for one byte/code unit where the Rust
  code works on bytes (`Vec<u8>` response bodies, the serialized wire buffer).
* `std::collections::HashMap<String, String>` is modelled as an association
  list built exclusively through `mapInsert`, which replaces the value of an
  existing key in place and otherwise appends — the observable lookup
  semantics of `HashMap::insert` followed by `HashMap::get`.
* Fallible Rust code returns `Option`.
-/

namespace Rttp

/-- Rust strings and byte buffers are lists of code units. -/
abbrev Str := List Char

/-- ASCII lower-casing of one code unit, as done byte-wise by Rust
`eq_ignore_ascii_case`. -/
def lowerAscii (c : Char) : Char :=
  if 'A' ≤ c && c ≤ 'Z' then Char.ofNat (c.toNat + 32) else c

/-- Models Rust `str::eq_ignore_ascii_case`: equality after ASCII
lower-casing every code unit. -/
def eqIgnoreAsciiCase (a b : Str) : Bool :=
  a.map lowerAscii == b.map lowerAscii

/-! ## `src/http/headers.rs` -/

/-- Models `Headers` (src/http/headers.rs): an insertion-ordered multi-map stored as
a vector of name/value pairs. -/
structure Headers where
  inner : List (Str × Str)
deriving DecidableEq

/-- Models `Headers::new` -/
def Headers.new : Headers := ⟨[]⟩

/-- Models `Headers::insert`: appends an entry, preserving existing same-name
entries. -/
def Headers.insert (h : Headers) (name value : Str) : Headers :=
  ⟨h.inner ++ [(name, value)]⟩

/-- Models `Headers::get`: first value whose name matches case-insensitively. -/
def Headers.get (h : Headers) (name : Str) : Option Str :=
  (h.inner.find? (fun p => eqIgnoreAsciiCase p.1 name)).map Prod.snd

/-- Models `Headers::get_all`: all values whose name matches case-insensitively, in
insertion order. -/
def Headers.getAll (h : Headers) (name : Str) : List Str :=
  (h.inner.filter (fun p => eqIgnoreAsciiCase p.1 name)).map Prod.snd

/-- Models `Headers::contains`: case-insensitive existence check. -/
def Headers.contains (h : Headers) (name : Str) : Bool :=
  h.inner.any (fun p => eqIgnoreAsciiCase p.1 name)

/-- Models `Headers::remove`: retains the non-matching entries and reports (via the
length comparison used in the source) whether anything was removed. -/
def Headers.remove (h : Headers) (name : Str) : Headers × Bool :=
  let kept := h.inner.filter (fun p => !eqIgnoreAsciiCase p.1 name)
  (⟨kept⟩, decide (kept.length < h.inner.length))

/-- Models `Headers::len` -/
def Headers.length (h : Headers) : Nat := h.inner.length

/-! ## `src/http/mod.rs`: `Method` and `StatusCode` -/

/-- Models `Method` (src/http/mod.rs). -/
inductive Method where
  | get | post | put | delete | head | options | patch | connect | trace
  | custom (s : Str)
deriving DecidableEq

/-- Models `Method::from_str` (infallible). -/
def Method.fromStr (s : Str) : Method :=
  if s = "GET".toList then .get
  else if s = "POST".toList then .post
  else if s = "PUT".toList then .put
  else if s = "DELETE".toList then .delete
  else if s = "HEAD".toList then .head
  else if s = "OPTIONS".toList then .options
  else if s = "PATCH".toList then .patch
  else if s = "CONNECT".toList then .connect
  else if s = "TRACE".toList then .trace
  else .custom s

/-- Models `StatusCode` (src/http/mod.rs). -/
inductive StatusCode where
  | continue100 | switchingProtocols
  | ok | created | accepted | noContent | partialContent
  | movedPermanently | found | seeOther | notModified
  | temporaryRedirect | permanentRedirect
  | badRequest | unauthorized | forbidden | notFound | methodNotAllowed
  | conflict | gone | lengthRequired | payloadTooLarge | uriTooLong
  | unsupportedMediaType | unprocessableEntity | tooManyRequests
  | internalServerError | notImplemented | badGateway
  | serviceUnavailable | gatewayTimeout | httpVersionNotSupported
deriving DecidableEq

/-- Models `StatusCode::as_u16`. -/
def StatusCode.asU16 : StatusCode → Nat
  | .continue100 => 100 | .switchingProtocols => 101
  | .ok => 200 | .created => 201 | .accepted => 202 | .noContent => 204
  | .partialContent => 206
  | .movedPermanently => 301 | .found => 302 | .seeOther => 303
  | .notModified => 304 | .temporaryRedirect => 307 | .permanentRedirect => 308
  | .badRequest => 400 | .unauthorized => 401 | .forbidden => 403
  | .notFound => 404 | .methodNotAllowed => 405 | .conflict => 409
  | .gone => 410 | .lengthRequired => 411 | .payloadTooLarge => 413
  | .uriTooLong => 414 | .unsupportedMediaType => 415
  | .unprocessableEntity => 422 | .tooManyRequests => 429
  | .internalServerError => 500 | .notImplemented => 501 | .badGateway => 502
  | .serviceUnavailable => 503 | .gatewayTimeout => 504
  | .httpVersionNotSupported => 505

/-- Models `StatusCode::canonical_reason`. -/
def StatusCode.canonicalReason : StatusCode → Str
  | .continue100 => "Continue".toList
  | .switchingProtocols => "Switching Protocols".toList
  | .ok => "OK".toList
  | .created => "Created".toList
  | .accepted => "Accepted".toList
  | .noContent => "No Content".toList
  | .partialContent => "Partial Content".toList
  | .movedPermanently => "Moved Permanently".toList
  | .found => "Found".toList
  | .seeOther => "See Other".toList
  | .notModified => "Not Modified".toList
  | .temporaryRedirect => "Temporary Redirect".toList
  | .permanentRedirect => "Permanent Redirect".toList
  | .badRequest => "Bad Request".toList
  | .unauthorized => "Unauthorized".toList
  | .forbidden => "Forbidden".toList
  | .notFound => "Not Found".toList
  | .methodNotAllowed => "Method Not Allowed".toList
  | .conflict => "Conflict".toList
  | .gone => "Gone".toList
  | .lengthRequired => "Length Required".toList
  | .payloadTooLarge => "Payload Too Large".toList
  | .uriTooLong => "URI Too Long".toList
  | .unsupportedMediaType => "Unsupported Media Type".toList
  | .unprocessableEntity => "Unprocessable Entity".toList
  | .tooManyRequests => "Too Many Requests".toList
  | .internalServerError => "Internal Server Error".toList
  | .notImplemented => "Not Implemented".toList
  | .badGateway => "Bad Gateway".toList
  | .serviceUnavailable => "Service Unavailable".toList
  | .gatewayTimeout => "Gateway Timeout".toList
  | .httpVersionNotSupported => "HTTP Version Not Supported".toList

/-! ## String helpers shared by query-string and route-pattern parsing -/

/-- Split at the first occurrence of `sep`, like Rust `str::find` followed by
slicing (or `splitn(2, sep)`): returns the part before the separator and,
when the separator occurs, the part after it. -/
def splitFirst (sep : Char) : Str → Str × Option Str
  | [] => ([], none)
  | c :: cs =>
    if c = sep then ([], some cs)
    else
      let r := splitFirst sep cs
      (c :: r.1, r.2)

/-- Split at every occurrence of `sep`, with Rust `str::split` semantics for a
non-empty pattern: the empty string yields `[""]`, adjacent separators yield
empty components. -/
def splitAll (sep : Char) : Str → List Str
  | [] => [[]]
  | c :: cs =>
    if c = sep then [] :: splitAll sep cs
    else
      match splitAll sep cs with
      | [] => [[c]]
      | h :: t => (c :: h) :: t

/-- Rust `str::replace('+', " ")`. -/
def plusToSpace (s : Str) : Str :=
  s.map (fun c => if c = '+' then ' ' else c)

/-! ## `HashMap<String, String>` model -/

/-- The HashMap-backed maps of the source (`Request.params`, `PathParams`). -/
abbrev HMap := List (Str × Str)

/-- Models `HashMap::insert`: replaces the value of an existing key in place,
otherwise adds the binding. -/
def mapInsert (m : HMap) (k v : Str) : HMap :=
  if m.any (fun p => p.1 == k) then
    m.map (fun p => if p.1 == k then (p.1, v) else p)
  else m ++ [(k, v)]

/-- Models `HashMap::get`. Over lists built with `mapInsert`, keys are unique, so
the first match is the binding. -/
def mapGet (m : HMap) (k : Str) : Option Str :=
  (m.find? (fun p => p.1 == k)).map Prod.snd

/-! ## `src/http/request.rs` -/

/-- Models `parse_query_string` (src/http/request.rs): split on `&`, split each pair
at the first `=` (a missing value defaults to empty), decode `+` as space in
keys and values, and collect into a `HashMap`. `splitn` always yields at
least one part, so the source's `filter_map` never drops a pair. -/
def parseQueryString (query : Str) : HMap :=
  (splitAll '&' query).foldl
    (fun m pair =>
      let kv := splitFirst '=' pair
      mapInsert m (plusToSpace kv.1) (plusToSpace (kv.2.getD [])))
    []

/-- The decoded pairs of a query string in textual order, before the
`HashMap` collapses duplicate keys. -/
def queryPairs (query : Str) : List (Str × Str) :=
  (splitAll '&' query).map
    (fun pair =>
      let kv := splitFirst '=' pair
      (plusToSpace kv.1, plusToSpace (kv.2.getD [])))

/-- The value of the first occurrence of key `k` among decoded pairs
(the lookup semantics the original claim ascribes to `query_param`). -/
def firstOccurrence (l : List (Str × Str)) (k : Str) : Option Str :=
  (l.find? (fun p => p.1 == k)).map Prod.snd

/-- The value of the last occurrence of key `k` among decoded pairs. -/
def lastOccurrence (l : List (Str × Str)) (k : Str) : Option Str :=
  (l.reverse.find? (fun p => p.1 == k)).map Prod.snd

/-- Models `Request` (src/http/request.rs). The `Bytes` body is a byte list. -/
structure Request where
  method : Method
  path : Str
  version : Nat
  headers : Headers
  query : Option Str
  body : List Nat
  params : HMap

/-- The request-assembly tail of `Request::parse`: split the raw path at the
first `?` into path and query, and derive `params` from the query via
`parse_query_string` (`unwrap_or_default` gives the empty map). -/
def requestFromParts (m : Method) (rawPath : Str) (version : Nat)
    (headers : Headers) (body : List Nat) : Request :=
  let pq := splitFirst '?' rawPath
  { method := m
    path := pq.1
    version := version
    headers := headers
    query := pq.2
    body := body
    params :=
      match pq.2 with
      | some q => parseQueryString q
      | none => [] }

/-- Models `Request::query_string`. -/
def Request.queryString (r : Request) : Option Str := r.query

/-- Models `Request::query_param`. -/
def Request.queryParam (r : Request) (key : Str) : Option Str :=
  mapGet r.params key

/-- Models `Request::is_keep_alive` (src/http/request.rs lines 246-251). -/
def Request.isKeepAlive (r : Request) : Bool :=
  match r.headers.get "connection".toList with
  | some conn => eqIgnoreAsciiCase conn "keep-alive".toList
  | none => r.version == 1

/-! ## `src/http/response.rs` -/

/-- Models `Response` (src/http/response.rs). `body` is the byte buffer of the
response (a `Char` models one byte). -/
structure Response where
  status : StatusCode
  headers : Headers
  body : Str
  keepAlive : Bool
deriving DecidableEq

/-- Models `Response::new`: given status, empty headers and body, keep-alive true. -/
def Response.new (status : StatusCode) : Response :=
  ⟨status, Headers.new, [], true⟩

/-- Models `Response::header` (also models `Response::add_header`, which performs the
same `Headers::insert`): appends, additive on repeated names. -/
def Response.header (r : Response) (name value : Str) : Response :=
  { r with headers := r.headers.insert name value }

/-- Models `Response::body`: sets the body buffer. -/
def Response.withBody (r : Response) (body : Str) : Response :=
  { r with body := body }

/-- Models `Response::keep_alive`. -/
def Response.withKeepAlive (r : Response) (keepAlive : Bool) : Response :=
  { r with keepAlive := keepAlive }

/-- Decimal digits of `n`, fuel-based (the fuel always suffices). -/
def natDigitsAux : Nat → Nat → Str
  | 0, _ => []
  | fuel + 1, n =>
    if n < 10 then [Char.ofNat (48 + n)]
    else natDigitsAux fuel (n / 10) ++ [Char.ofNat (48 + n % 10)]

/-- Decimal rendering of a `Nat`, as `format!` produces for `usize`/`u16`. -/
def natDigits (n : Nat) : Str := natDigitsAux (n + 1) n

/-- The CRLF line terminator. -/
def crlf : Str := ['\r', '\n']

/-- The status line `HTTP/1.1 {code} {reason}\r\n` of `into_bytes`. -/
def statusLine (s : StatusCode) : Str :=
  "HTTP/1.1 ".toList ++ natDigits s.asU16 ++ [' '] ++ s.canonicalReason ++ crlf

/-- One `{name}: {value}\r\n` header line of the `into_bytes` loop. -/
def renderHeaderLine (p : Str × Str) : Str :=
  p.1 ++ ": ".toList ++ p.2 ++ crlf

/-- The header lines written by the `into_bytes` loop, in order. -/
def renderHeaderLines (l : List (Str × Str)) : Str :=
  (l.map renderHeaderLine).flatten

/-- The header map at serialization time (`into_bytes` lines 96-106): insert
`Content-Type: text/plain; charset=utf-8` when the body is non-empty and no
`Content-Type` is present, then always insert the `Connection` header chosen
by the keep-alive flag. -/
def finalHeaders (r : Response) : Headers :=
  let h1 :=
    if !r.body.isEmpty && !r.headers.contains "content-type".toList then
      r.headers.insert "Content-Type".toList "text/plain; charset=utf-8".toList
    else r.headers
  h1.insert "Connection".toList
    (if r.keepAlive then "keep-alive".toList else "close".toList)

/-- All header lines of the serialized response as name/value pairs: the
looped-over map followed by the always-written `Content-Length` line. -/
def emittedHeaders (r : Response) : List (Str × Str) :=
  (finalHeaders r).inner ++ [("Content-Length".toList, natDigits r.body.length)]

/-- Models `Response::into_bytes` (src/http/response.rs lines 93-138): status line,
the header lines of `finalHeaders`, the authoritative `Content-Length` line,
the blank-line terminator, then the body bytes verbatim (skipping the `put`
for an empty body appends nothing either way). -/
def Response.intoBytes (r : Response) : Str :=
  statusLine r.status
    ++ renderHeaderLines (finalHeaders r).inner
    ++ ("Content-Length: ".toList ++ natDigits r.body.length ++ crlf)
    ++ crlf
    ++ r.body

/-- The `Content-Length: {n}\r\n` line, as the spec describes it. -/
def contentLengthLine (n : Nat) : Str :=
  "Content-Length: ".toList ++ natDigits n ++ crlf

/-- Number of occurrences of `pat` as a contiguous substring of `s`. -/
def countOcc (pat s : Str) : Nat :=
  (s.tails.filter (fun t => pat.isPrefixOf t)).length

/-- Number of entries of `l` whose name equals `n` case-insensitively. -/
def countName (l : List (Str × Str)) (n : Str) : Nat :=
  (l.filter (fun p => eqIgnoreAsciiCase p.1 n)).length

/-! ## `src/router/mod.rs` -/

/-- Models `Segment` (src/router/mod.rs). -/
inductive Segment where
  | static (s : Str)
  | parameter (s : Str)
deriving DecidableEq

/-- Models `Pattern` (src/router/mod.rs). -/
inductive Pattern where
  | exact (s : Str)
  | parameterized (segments : List Segment)
  | wildcard (pre : Str)
deriving DecidableEq

/-- Models `PathParams` (src/context/mod.rs) wraps `HashMap<String, String>`. -/
abbrev PathParams := HMap

/-- Does the string end with `'/'`? (Rust `str::ends_with('/')`.) -/
def endsWithSlash (s : Str) : Bool := s.getLast? == some '/'

/-- The trailing-slash normalization applied identically at the top of
`Pattern::parse` and `Pattern::matches`: strip one trailing slash unless the
string is the bare root `/`. -/
def normalizeTrailing (s : Str) : Str :=
  if s != ['/'] && endsWithSlash s then s.dropLast else s

/-- Models `str::strip_suffix("/*")`: remove a final `/*` when present. -/
def stripStarSuffix (s : Str) : Option Str :=
  match s.reverse with
  | '*' :: '/' :: rest => some rest.reverse
  | _ => none

/-- Models `str::strip_pre`-fix: remove `pre` from the front of `s` when `s` starts
with it. -/
def stripPre : Str → Str → Option Str
  | [], s => some s
  | _ :: _, [] => none
  | c :: p, d :: s => if c = d then stripPre p s else none

/-- The non-empty `/`-separated components of a path or pattern, as computed
by both `Pattern::parse` and `Pattern::matches`
(`split('/').filter(|s| !s.is_empty())`). -/
def pathSegments (s : Str) : List Str :=
  (splitAll '/' s).filter (fun seg => !seg.isEmpty)

/-- One pattern segment: `:name` becomes a capture, anything else a literal
(`strip_pre`-fixing `:`). -/
def segmentOf (s : Str) : Segment :=
  match s with
  | ':' :: p => Segment.parameter p
  | _ => Segment.static s

/-- The classification body of `Pattern::parse`, after normalization:
a `/*` suffix gives a wildcard, a `:` anywhere gives a parameterized
pattern, otherwise the pattern is exact. -/
def parseBody (pattern : Str) : Pattern :=
  match stripStarSuffix pattern with
  | some pre => Pattern.wildcard pre
  | none =>
    if pattern.contains ':' then
      Pattern.parameterized ((pathSegments pattern).map segmentOf)
    else Pattern.exact pattern

/-- Models `Pattern::parse` (src/router/mod.rs lines 100-128). -/
def Pattern.parse (pattern : Str) : Pattern :=
  parseBody (normalizeTrailing pattern)

/-- The segment loop of `Pattern::matches` for parameterized patterns: zip
pattern segments with path segments, reject on a literal mismatch, bind
captures into the params map. Only reached with equal lengths. -/
def matchSegments : List Segment → List Str → PathParams → Option PathParams
  | [], _, params => some params
  | _ :: _, [], params => some params
  | seg :: segs, p :: ps, params =>
    match seg with
    | .static s => if s = p then matchSegments segs ps params else none
    | .parameter name => matchSegments segs ps (mapInsert params name p)

/-- The fixed capture name used by wildcard patterns. -/
def wildcardKey : Str := "wildcard".toList

/-- The match body of `Pattern::matches`, after path normalization. The
parameterized case returns `none` when the segment counts differ (the
source's early `return None`). -/
def matchesBody : Pattern → Str → Option PathParams
  | .exact p, path => if p = path then some [] else none
  | .parameterized segs, path =>
    let psegs := pathSegments path
    if segs.length = psegs.length then matchSegments segs psegs [] else none
  | .wildcard pre, path =>
    match stripPre pre path with
    | some suffix => some (mapInsert [] wildcardKey suffix)
    | none => none

/-- Models `Pattern::matches` (src/router/mod.rs lines 131-179). -/
def Pattern.matches (p : Pattern) (path : Str) : Option PathParams :=
  matchesBody p (normalizeTrailing path)

/-- Models `Context` (src/context/mod.rs): the request plus the captured path
params. The type-indexed extensions store is not needed by any claim and is
omitted. -/
structure Context where
  request : Request
  params : PathParams

/-- Models `Route` (src/router/mod.rs): a method, a compiled pattern, and the
handler. Handlers are async in the source; their awaited result is a
`Response`, modelled as a plain function. -/
structure Route where
  method : Method
  pattern : Pattern
  handler : Context → Response

/-- Models `Route::matches`: the pattern is consulted only when the method is
equal. -/
def Route.matches (r : Route) (m : Method) (path : Str) : Option PathParams :=
  if r.method = m then r.pattern.matches path else none

/-- Models `Router::route` (src/router/mod.rs lines 429-440): first matching route
in registration order wins; no match yields `404 Not Found`. -/
def routerRoute : List Route → Request → Response
  | [], _ => Response.new .notFound
  | r :: rest, req =>
    match r.matches req.method req.path with
    | some params => r.handler ⟨req, params⟩
    | none => routerRoute rest req

/-! ## `src/middleware/mod.rs` -/

/-- Models `Next` (src/middleware/mod.rs): the middleware chain plus the cursor
index. The element type `H` abstracts the type-erased handler closures. -/
structure NextState (H : Type) where
  middlewares : List H
  index : Nat

/-- Models `Next::run` (src/middleware/mod.rs lines 141-151): when the cursor is in
range, invoke the handler there with the advanced cursor (`step` abstracts
the call `handler(ctx, self).await`); otherwise return the
`500 Internal Server Error` fallback. -/
def NextState.run {H : Type} (step : H → Context → NextState H → Response)
    (n : NextState H) (ctx : Context) : Response :=
  if h : n.index < n.middlewares.length then
    step (n.middlewares.get ⟨n.index, h⟩) ctx { n with index := n.index + 1 }
  else
    (Response.new .internalServerError).withBody
      "No response generated by middleware pipeline".toList

/-! ## UTF-8 validation and the header-collection stage of `Request::parse` -/

/-- Is `b` a UTF-8 continuation byte? -/
def isCont (b : Nat) : Bool := 0x80 ≤ b && b ≤ 0xBF

/-- Strict UTF-8 decoding of a byte sequence, as validated by Rust
`str::from_utf8`: rejects overlong encodings, surrogates, and code points
above U+10FFFF. Returns the decoded code units on success. -/
def utf8Decode : List Nat → Option Str
  | [] => some []
  | b :: rest =>
    if b ≤ 0x7F then
      (utf8Decode rest).map (fun cs => Char.ofNat b :: cs)
    else if 0xC2 ≤ b && b ≤ 0xDF then
      match rest with
      | b2 :: rest2 =>
        if isCont b2 then
          (utf8Decode rest2).map
            (fun cs => Char.ofNat ((b - 0xC0) * 0x40 + (b2 - 0x80)) :: cs)
        else none
      | [] => none
    else if 0xE0 ≤ b && b ≤ 0xEF then
      match rest with
      | b2 :: b3 :: rest3 =>
        if (if b = 0xE0 then 0xA0 ≤ b2 && b2 ≤ 0xBF
            else if b = 0xED then 0x80 ≤ b2 && b2 ≤ 0x9F
            else isCont b2) && isCont b3 then
          (utf8Decode rest3).map
            (fun cs =>
              Char.ofNat ((b - 0xE0) * 0x1000 + (b2 - 0x80) * 0x40 + (b3 - 0x80)) :: cs)
        else none
      | _ => none
    else if 0xF0 ≤ b && b ≤ 0xF4 then
      match rest with
      | b2 :: b3 :: b4 :: rest4 =>
        if (if b = 0xF0 then 0x90 ≤ b2 && b2 ≤ 0xBF
            else if b = 0xF4 then 0x80 ≤ b2 && b2 ≤ 0x8F
            else isCont b2) && isCont b3 && isCont b4 then
          (utf8Decode rest4).map
            (fun cs =>
              Char.ofNat ((b - 0xF0) * 0x40000 + (b2 - 0x80) * 0x1000
                + (b3 - 0x80) * 0x40 + (b4 - 0x80)) :: cs)
        else none
      | _ => none
    else none

/-- The `httparse::Status::Complete` output that `Request::parse` consumes:
the optional request-line fields and the raw headers, each a (UTF-8) name
with a raw byte value. `httparse` is an external crate; its parsed-out
structure is the interface the repository code works with. -/
structure RawParsed where
  method : Option Str
  path : Option Str
  version : Option Nat
  headers : List (Str × List Nat)

/-- The header-collection loop of `Request::parse` (lines 183-188): each raw
header whose value decodes as UTF-8 is inserted; a header with an invalid
value is skipped without error. -/
def buildHeaderMap (raw : List (Str × List Nat)) : Headers :=
  raw.foldl
    (fun m h =>
      match utf8Decode h.2 with
      | some value => m.insert h.1 value
      | none => m)
    Headers.new

/-- The tail of `Request::parse` after `httparse` reports `Complete`: fail
with `MissingField` when method, path or version is absent, otherwise build
the header map (dropping non-UTF-8 values) and assemble the request. -/
def assembleRequest (raw : RawParsed) (body : List Nat) : Option Request :=
  match raw.method with
  | none => none
  | some mStr =>
    match raw.path with
    | none => none
    | some rawPath =>
      match raw.version with
      | none => none
      | some v =>
        some (requestFromParts (Method.fromStr mStr) rawPath v
          (buildHeaderMap raw.headers) body)

/-! ## Sample values used by witnesses -/

/-- A sample route answering `GET /path` with `200 OK`. -/
def routeOk : Route :=
  ⟨Method.get, Pattern.parse "/path".toList, fun _ => Response.new .ok⟩

/-- A sample route answering `GET /path` with `202 Accepted`. -/
def routeAccepted : Route :=
  ⟨Method.get, Pattern.parse "/path".toList, fun _ => Response.new .accepted⟩

/-- A sample parsed request `GET /path HTTP/1.1` with no headers. -/
def sampleRequest : Request :=
  requestFromParts Method.get "/path".toList 1 Headers.new []

/-! ## Helper lemmas -/

theorem eqIgnore_congr {n m : Str} (hnm : eqIgnoreAsciiCase n m = true) (p : Str) :
    eqIgnoreAsciiCase p n = eqIgnoreAsciiCase p m := by
  have h2 : n.map lowerAscii = m.map lowerAscii := eq_of_beq hnm
  simp [eqIgnoreAsciiCase, h2]

theorem find?_eq_head?_filter {α : Type} (p : α → Bool) (l : List α) :
    l.find? p = (l.filter p).head? := by
  induction l with
  | nil => rfl
  | cons x t ih =>
    by_cases hx : p x = true
    · rw [List.find?_cons_of_pos t hx, List.filter_cons_of_pos hx]
      rfl
    · rw [List.find?_cons_of_neg t hx, List.filter_cons_of_neg hx]
      exact ih

theorem filter_not_length_lt_iff {α : Type} (pr : α → Bool) (l : List α) :
    (l.filter fun a => !pr a).length < l.length ↔ l.any pr = true := by
  rw [List.length_filter_lt_length_iff_exists]
  simp [List.any_eq_true]

/-! ## Claim theorems -/

/-- Claim C7: the header-map operations `get`, `get_all`, `contains` and
`remove` give the same result for any ASCII recasing of the name (recasing
expressed as `eq_ignore_ascii_case` agreement); `get` is the first of the
values `get_all` yields; `get_all` yields the matching values in insertion
order (a sublist of all values in order); `remove` deletes every matching
entry and reports whether any entry was removed. -/
theorem headers_case_insensitive_ops (h : Headers) (n m : Str)
    (hnm : eqIgnoreAsciiCase n m = true) :
    (h.get n = h.get m ∧ h.getAll n = h.getAll m ∧
      h.contains n = h.contains m ∧ h.remove n = h.remove m) ∧
    h.get n = (h.getAll n).head? ∧
    (h.getAll n).Sublist (h.inner.map Prod.snd) ∧
    (h.remove n).1.contains n = false ∧
    (h.remove n).2 = h.contains n := by
  have hpred : (fun p : Str × Str => eqIgnoreAsciiCase p.1 n)
      = (fun p : Str × Str => eqIgnoreAsciiCase p.1 m) :=
    funext fun p => eqIgnore_congr hnm p.1
  refine ⟨⟨?_, ?_, ?_, ?_⟩, ?_, ?_, ?_, ?_⟩
  · rw [Headers.get, Headers.get, hpred]
  · rw [Headers.getAll, Headers.getAll, hpred]
  · rw [Headers.contains, Headers.contains, hpred]
  · have hpredneg : (fun p : Str × Str => !eqIgnoreAsciiCase p.1 n)
        = (fun p : Str × Str => !eqIgnoreAsciiCase p.1 m) :=
      funext fun p => by rw [eqIgnore_congr hnm p.1]
    rw [Headers.remove, Headers.remove, hpredneg]
  · rw [Headers.get, Headers.getAll, find?_eq_head?_filter, List.head?_map]
  · exact List.Sublist.map Prod.snd (List.filter_sublist h.inner)
  · rw [Headers.remove, Headers.contains]
    rw [List.any_eq_false]
    intro x hx
    rw [List.mem_filter] at hx
    simp only [Bool.not_eq_true'] at hx
    simp [hx.2]
  · rw [Headers.remove, Headers.contains]
    rw [Bool.eq_iff_iff, decide_eq_true_eq]
    exact filter_not_length_lt_iff _ _

/-- Witness for C7 at a concrete header map and two recasings of the same
name. -/
theorem headers_case_insensitive_ops_witness :
    Headers.get ⟨[("Content-Type".toList, "text/plain".toList)]⟩ "CONTENT-TYPE".toList
      = Headers.get ⟨[("Content-Type".toList, "text/plain".toList)]⟩ "content-type".toList :=
  (headers_case_insensitive_ops ⟨[("Content-Type".toList, "text/plain".toList)]⟩
    "CONTENT-TYPE".toList "content-type".toList (by decide)).1.1

/-- Claim C2: keep-alive determination — with no `Connection` header,
HTTP/1.1 keeps the connection alive and HTTP/1.0 does not; with a
`Connection` header, a case-insensitive `keep-alive` value gives true and a
case-insensitive `close` value gives false, for either version. -/
theorem is_keep_alive_semantics (r : Request) :
    (r.version = 1 → r.headers.get "connection".toList = none → r.isKeepAlive = true) ∧
    (r.version = 0 → r.headers.get "connection".toList = none → r.isKeepAlive = false) ∧
    (∀ v, r.headers.get "connection".toList = some v →
      (eqIgnoreAsciiCase v "keep-alive".toList = true → r.isKeepAlive = true) ∧
      (eqIgnoreAsciiCase v "close".toList = true → r.isKeepAlive = false)) := by
  refine ⟨?_, ?_, ?_⟩
  · intro hv hn
    unfold Request.isKeepAlive
    rw [hn, hv]
    decide
  · intro hv hn
    unfold Request.isKeepAlive
    rw [hn, hv]
    decide
  · intro v hv
    constructor
    · intro hka
      unfold Request.isKeepAlive
      rw [hv]
      exact hka
    · intro hc
      have h2 : v.map lowerAscii = "close".toList.map lowerAscii := eq_of_beq hc
      unfold Request.isKeepAlive
      rw [hv]
      show eqIgnoreAsciiCase v "keep-alive".toList = false
      unfold eqIgnoreAsciiCase
      rw [h2]
      decide

/-- Witness for C2: `Connection: CLOSE` on an HTTP/1.1 request closes the
connection. -/
theorem is_keep_alive_semantics_witness :
    (requestFromParts Method.get "/".toList 1
      ⟨[("Connection".toList, "CLOSE".toList)]⟩ []).isKeepAlive = false :=
  ((is_keep_alive_semantics
      (requestFromParts Method.get "/".toList 1
        ⟨[("Connection".toList, "CLOSE".toList)]⟩ [])).2.2
    "CLOSE".toList (by decide)).2 (by decide)

theorem mapGet_map_ne (m : HMap) (k v k2 : Str) (hne : k2 ≠ k) :
    mapGet (m.map (fun p => if p.1 == k then (p.1, v) else p)) k2 = mapGet m k2 := by
  induction m with
  | nil => rfl
  | cons p t ih =>
    have hfst : (if p.1 == k then (p.1, v) else p).1 = p.1 := by
      split <;> rfl
    simp only [List.map_cons, mapGet, List.find?_cons, hfst]
    cases hp2 : (p.1 == k2)
    · simp only [mapGet] at ih
      exact ih
    · have hk : (p.1 == k) = false := by
        rw [eq_of_beq hp2]
        exact beq_eq_false_iff_ne.mpr hne
      simp [hk]

theorem mapGet_map_eq (m : HMap) (k v : Str)
    (hany : m.any (fun p => p.1 == k) = true) :
    mapGet (m.map (fun p => if p.1 == k then (p.1, v) else p)) k = some v := by
  induction m with
  | nil => simp at hany
  | cons p t ih =>
    by_cases hp : (p.1 == k) = true
    · have hfst : (if p.1 == k then (p.1, v) else p) = (p.1, v) := if_pos hp
      rw [List.map_cons, hfst, mapGet,
        List.find?_cons_of_pos (p := fun q : Str × Str => q.1 == k) _
          (show (((p.1, v)).1 == k) = true from hp)]
      rfl
    · have hfst : (if p.1 == k then (p.1, v) else p) = p := if_neg hp
      have hany2 : t.any (fun p => p.1 == k) = true := by
        rw [List.any_cons] at hany
        simpa [hp] using hany
      rw [List.map_cons, hfst, mapGet,
        List.find?_cons_of_neg (p := fun q : Str × Str => q.1 == k) _ hp]
      exact ih hany2

theorem mapGet_mapInsert (m : HMap) (k v k2 : Str) :
    mapGet (mapInsert m k v) k2 = if k == k2 then some v else mapGet m k2 := by
  unfold mapInsert
  by_cases hany : m.any (fun p => p.1 == k) = true
  · rw [if_pos hany]
    by_cases hk : (k == k2) = true
    · rw [if_pos hk, ← eq_of_beq hk]
      exact mapGet_map_eq m k v hany
    · rw [if_neg hk]
      exact mapGet_map_ne m k v k2 (fun h => hk (by rw [h]; exact beq_self_eq_true k))
  · rw [if_neg hany]
    rw [mapGet, List.find?_append]
    by_cases hk : (k == k2) = true
    · rw [if_pos hk]
      have hnone : m.find? (fun p => p.1 == k2) = none := by
        rw [List.find?_eq_none]
        intro x hx
        have hall := List.any_eq_false.mp (Bool.not_eq_true _ ▸ hany) x hx
        rw [← eq_of_beq hk]
        exact hall
      rw [hnone]
      have : List.find? (fun p => p.1 == k2) [(k, v)] = some (k, v) :=
        List.find?_cons_of_pos _ hk
      rw [Option.none_or, this]
      rfl
    · rw [if_neg hk]
      have : List.find? (fun p => p.1 == k2) [(k, v)] = none := by
        rw [List.find?_eq_none]
        intro x hx
        simp at hx
        rw [hx]
        simpa using hk
      rw [this, Option.or_none, mapGet]

theorem mapGet_foldl_insert (l : List (Str × Str)) (init : HMap) (k : Str) :
    mapGet (l.foldl (fun m kv => mapInsert m kv.1 kv.2) init) k =
      match l.reverse.find? (fun p => p.1 == k) with
      | some p => some p.2
      | none => mapGet init k := by
  induction l generalizing init with
  | nil => rfl
  | cons kv t ih =>
    rw [List.foldl_cons, ih, List.reverse_cons, List.find?_append]
    cases hfind : t.reverse.find? (fun p => p.1 == k)
    · rw [Option.none_or]
      by_cases hk : (kv.1 == k) = true
      · have h1 : List.find? (fun p => p.1 == k) [kv] = some kv :=
          List.find?_cons_of_pos (p := fun q : Str × Str => q.1 == k) _ hk
        rw [h1, mapGet_mapInsert, if_pos hk]
      · have h1 : List.find? (fun p => p.1 == k) [kv] = none := by
          rw [List.find?_eq_none]
          intro x hx
          simp at hx
          rw [hx]
          simpa using hk
        rw [h1, mapGet_mapInsert, if_neg hk]
    · rfl

theorem parseQueryString_eq_foldl (q : Str) :
    parseQueryString q =
      (queryPairs q).foldl (fun m kv => mapInsert m kv.1 kv.2) [] := by
  unfold parseQueryString queryPairs
  rw [List.foldl_map]

theorem mapGet_parseQueryString (q k : Str) :
    mapGet (parseQueryString q) k = lastOccurrence (queryPairs q) k := by
  rw [parseQueryString_eq_foldl, mapGet_foldl_insert, lastOccurrence]
  cases (queryPairs q).reverse.find? (fun p => p.1 == k) <;> rfl

theorem splitFirst_append (p q : Str) (sep : Char) (hp : sep ∉ p) :
    splitFirst sep (p ++ sep :: q) = (p, some q) := by
  induction p with
  | nil =>
    rw [List.nil_append, splitFirst, if_pos rfl]
  | cons c t ih =>
    have hc : c ≠ sep := fun h => hp (h ▸ List.mem_cons_self c t)
    rw [List.cons_append, splitFirst, if_neg hc,
      ih (fun h => hp (List.mem_cons_of_mem c h))]

/-- Counterexample to claim C1 as stated: for the target `/s?a=1&a=2` the
point lookup `query_param("a")` returns `"2"`, the value of the last
occurrence, while the first occurrence of key `a` among the decoded pairs
carries the value `"1"`. -/
theorem query_param_first_occurrence_fails :
    (requestFromParts Method.get "/s?a=1&a=2".toList 1 Headers.new []).queryParam "a".toList
      = some "2".toList ∧
    firstOccurrence (queryPairs "a=1&a=2".toList) "a".toList = some "1".toList ∧
    (some "2".toList : Option Str) ≠ some "1".toList := by
  decide

/-- Claim C1 (amended): for every query string, the decoded query-parameter
point lookup `query_param` returns the value of the **last** occurrence of
the key (duplicate keys overwrite earlier ones in the `HashMap`), while the
raw query string returned by `query_string` is kept verbatim, retaining all
pairs unchanged. -/
theorem query_param_last_occurrence_wins (m : Method) (v : Nat) (hs : Headers)
    (b : List Nat) (p q k : Str) (hp : '?' ∉ p) :
    (requestFromParts m (p ++ '?' :: q) v hs b).queryString = some q ∧
    (requestFromParts m (p ++ '?' :: q) v hs b).queryParam k =
      lastOccurrence (queryPairs q) k := by
  have hsplit : splitFirst '?' (p ++ '?' :: q) = (p, some q) :=
    splitFirst_append p q '?' hp
  constructor
  · rw [Request.queryString, requestFromParts, hsplit]
  · rw [Request.queryParam, requestFromParts, hsplit]
    exact mapGet_parseQueryString q k

/-- Witness for the amended C1 at the target `/s?a=1&a=2`. -/
theorem query_param_last_occurrence_wins_witness :
    (requestFromParts Method.get ("/s".toList ++ '?' :: "a=1&a=2".toList) 1
        Headers.new []).queryString = some "a=1&a=2".toList ∧
    (requestFromParts Method.get ("/s".toList ++ '?' :: "a=1&a=2".toList) 1
        Headers.new []).queryParam "a".toList =
      lastOccurrence (queryPairs "a=1&a=2".toList) "a".toList :=
  query_param_last_occurrence_wins Method.get 1 Headers.new []
    "/s".toList "a=1&a=2".toList "a".toList (by decide)

/-- Claim C3: the serialized response is a header section ending in the
authoritative `Content-Length: len(body)` line and the blank-line
terminator, followed by exactly the body bytes, unaltered (and hence by
nothing when the body is empty). -/
theorem into_bytes_content_length_and_body (r : Response) :
    ∃ H : Str, r.intoBytes = H ++ contentLengthLine r.body.length ++ crlf ++ r.body := by
  refine ⟨statusLine r.status ++ renderHeaderLines (finalHeaders r).inner, ?_⟩
  rw [Response.intoBytes, contentLengthLine]

/-- Counterexample to claim C4 as stated: caller-inserted `Content-Length`
or `Connection` headers are emitted in addition to the automatically
injected ones, so the serialized bytes contain two such header lines. -/
theorem into_bytes_duplicate_header_lines :
    countOcc "Content-Length:".toList
        (((Response.new .ok).header "Content-Length".toList "7".toList).intoBytes) = 2 ∧
    countOcc "Connection:".toList
        (((Response.new .ok).header "Connection".toList "close".toList).intoBytes) = 2 := by
  decide

/-- Claim C4 (amended): for every response on which the caller has inserted
no `Content-Length` and no `Connection` header, the serialized output
contains exactly one `Content-Length` and exactly one `Connection` header
line (both injected automatically); the serialized bytes are exactly the
status line, the lines of `emittedHeaders`, the blank line, and the body. -/
theorem into_bytes_single_injected_headers (r : Response)
    (hcl : r.headers.contains "content-length".toList = false)
    (hco : r.headers.contains "connection".toList = false) :
    countName (emittedHeaders r) "content-length".toList = 1 ∧
    countName (emittedHeaders r) "connection".toList = 1 ∧
    r.intoBytes = statusLine r.status ++ renderHeaderLines (emittedHeaders r)
      ++ crlf ++ r.body := by
  have hnil : ∀ nm : Str, r.headers.contains nm = false →
      r.headers.inner.filter (fun p => eqIgnoreAsciiCase p.1 nm) = [] := by
    intro nm hnm
    rw [List.filter_eq_nil_iff]
    intro a ha
    exact fun hcontra =>
      (Bool.not_eq_true _ ▸ hnm : ¬_) (List.any_eq_true.mpr ⟨a, ha, hcontra⟩)
  have e1 : eqIgnoreAsciiCase "Content-Type".toList "content-length".toList = false := by decide
  have e2 : eqIgnoreAsciiCase "Connection".toList "content-length".toList = false := by decide
  have e3 : eqIgnoreAsciiCase "Content-Length".toList "content-length".toList = true := by decide
  have e4 : eqIgnoreAsciiCase "Content-Type".toList "connection".toList = false := by decide
  have e5 : eqIgnoreAsciiCase "Connection".toList "connection".toList = true := by decide
  have e6 : eqIgnoreAsciiCase "Content-Length".toList "connection".toList = false := by decide
  have hcons : ∀ (a : Str × Str) (t : List (Str × Str)) (n : Str),
      countName (a :: t) n
        = (if eqIgnoreAsciiCase a.1 n = true then 1 else 0) + countName t n := by
    intro a t n
    rw [countName, countName, List.filter_cons]
    split
    · simp [Nat.add_comm]
    · simp
  have happ : ∀ (l1 l2 : List (Str × Str)) (n : Str),
      countName (l1 ++ l2) n = countName l1 n + countName l2 n := by
    intro l1 l2 n
    rw [countName, countName, countName, List.filter_append, List.length_append]
  refine ⟨?_, ?_, ?_⟩
  · rw [emittedHeaders, finalHeaders]
    by_cases hct : (!r.body.isEmpty && !r.headers.contains "content-type".toList) = true
    · rw [if_pos hct, Headers.insert, Headers.insert,
        List.append_assoc, List.append_assoc, happ, happ, happ,
        countName, hnil _ hcl, hcons, hcons, hcons]
      dsimp only
      rw [e1, e2, e3]
      simp [countName]
    · rw [if_neg hct, Headers.insert, List.append_assoc, happ, happ,
        countName, hnil _ hcl, hcons, hcons]
      dsimp only
      rw [e2, e3]
      simp [countName]
  · rw [emittedHeaders, finalHeaders]
    by_cases hct : (!r.body.isEmpty && !r.headers.contains "content-type".toList) = true
    · rw [if_pos hct, Headers.insert, Headers.insert,
        List.append_assoc, List.append_assoc, happ, happ, happ,
        countName, hnil _ hco, hcons, hcons, hcons]
      dsimp only
      rw [e4, e5, e6]
      simp [countName]
    · rw [if_neg hct, Headers.insert, List.append_assoc, happ, happ,
        countName, hnil _ hco, hcons, hcons]
      dsimp only
      rw [e5, e6]
      simp [countName]
  · rw [Response.intoBytes, emittedHeaders]
    simp [renderHeaderLines, renderHeaderLine, List.append_assoc]

/-- Witness for the amended C4 at a plain `200 OK` response. -/
theorem into_bytes_single_injected_headers_witness :
    countName (emittedHeaders (Response.new .ok)) "content-length".toList = 1 ∧
    countName (emittedHeaders (Response.new .ok)) "connection".toList = 1 ∧
    (Response.new .ok).intoBytes = statusLine (Response.new .ok).status
      ++ renderHeaderLines (emittedHeaders (Response.new .ok))
      ++ crlf ++ (Response.new .ok).body :=
  into_bytes_single_injected_headers (Response.new .ok) (by decide) (by decide)

/-- Claim C5: `Router::route` tries routes in registration order — if no
registered route matches the request's method and path, the result is
`404 Not Found`; if the routes split as `pre ++ r :: post` where nothing in
`pre` matches and `r` matches with params `ps`, the result is exactly
`r`'s handler applied to the context, regardless of `post` (in particular,
of two routes with the same method and pattern the earlier-registered
handler's response is returned). -/
theorem router_first_match_wins (req : Request) :
    (∀ rs : List Route,
      (∀ q ∈ rs, q.matches req.method req.path = none) →
      routerRoute rs req = Response.new .notFound) ∧
    (∀ (pre post : List Route) (r : Route) (ps : PathParams),
      (∀ q ∈ pre, q.matches req.method req.path = none) →
      r.matches req.method req.path = some ps →
      routerRoute (pre ++ r :: post) req = r.handler ⟨req, ps⟩) := by
  constructor
  · intro rs hall
    induction rs with
    | nil => rfl
    | cons a t ih =>
      rw [routerRoute, hall a (List.mem_cons_self a t)]
      exact ih (fun q hq => hall q (List.mem_cons_of_mem a hq))
  · intro pre
    induction pre with
    | nil =>
      intro post r ps _ hr
      rw [List.nil_append, routerRoute, hr]
    | cons a t ih =>
      intro post r ps hpre hr
      rw [List.cons_append, routerRoute, hpre a (List.mem_cons_self a t)]
      exact ih post r ps (fun q hq => hpre q (List.mem_cons_of_mem a hq)) hr

/-- Witness for C5: of two routes registered for `GET /path`, the
earlier-registered one (answering `200 OK`) wins. -/
theorem router_first_match_wins_witness :
    routerRoute [routeOk, routeAccepted] sampleRequest = Response.new .ok :=
  (router_first_match_wins sampleRequest).2 [] [routeAccepted] routeOk []
    (by intro q hq; cases hq) (by decide)

theorem stripPre_eq_some_iff (pre s t : Str) :
    stripPre pre s = some t ↔ s = pre ++ t := by
  induction pre generalizing s with
  | nil =>
    rw [stripPre, List.nil_append]
    constructor
    · intro h
      exact Option.some_inj.mp h
    · intro h
      rw [h]
  | cons c p ih =>
    cases s with
    | nil =>
      rw [stripPre]
      constructor
      · intro h
        cases h
      · intro h
        cases h
    | cons d s2 =>
      rw [stripPre]
      by_cases hc : c = d
      · rw [if_pos hc, ih, List.cons_append, hc]
        constructor
        · intro h
          rw [h]
        · intro h
          exact (List.cons_inj_right d).mp h
      · rw [if_neg hc]
        constructor
        · intro h
          cases h
        · intro h
          exact absurd (List.cons_eq_cons.mp h).1.symm hc

theorem matchSegments_static_agree (segs : List Segment) :
    ∀ (psegs : List Str) (acc ps : PathParams),
    segs.length = psegs.length →
    matchSegments segs psegs acc = some ps →
    List.Forall₂ (fun seg pseg => ∀ s, seg = Segment.static s → pseg = s)
      segs psegs := by
  induction segs with
  | nil =>
    intro psegs acc ps hlen _
    cases psegs with
    | nil => exact List.Forall₂.nil
    | cons p pt => cases hlen
  | cons seg t ih =>
    intro psegs acc ps hlen hm
    cases psegs with
    | nil => cases hlen
    | cons p pt =>
      have hlen2 : t.length = pt.length := Nat.succ_injective hlen
      cases seg with
      | static s =>
        rw [matchSegments] at hm
        by_cases hsp : s = p
        · rw [if_pos hsp] at hm
          refine List.Forall₂.cons ?_ (ih pt acc ps hlen2 hm)
          intro s2 hs2
          cases hs2
          exact hsp.symm
        · rw [if_neg hsp] at hm
          cases hm
      | parameter name =>
        rw [matchSegments] at hm
        refine List.Forall₂.cons ?_ (ih pt _ ps hlen2 hm)
        intro s2 hs2
        cases hs2

/-- Counterexample to claim C6 as stated: the compiled wildcard pattern for
`/files//*` stores the prefix `/files/`; the path `/files/` starts with that
stored prefix, yet does not match, because the path is trailing-slash
normalized to `/files` before the prefix check. -/
theorem wildcard_stored_prefix_not_sufficient :
    Pattern.parse "/files//*".toList = Pattern.wildcard "/files/".toList ∧
    "/files/".toList.isPrefixOf "/files/".toList = true ∧
    (Pattern.parse "/files//*".toList).matches "/files/".toList = none := by
  decide

/-- Claim C6 (amended): parameterized patterns match only paths whose
trailing-slash-normalized form has the same non-empty-segment count, with
literal segments matching verbatim and captures binding their values (for
`/users/:id/posts/:pid` against `/users/7/posts/99` the captured params are
exactly id ↦ 7, pid ↦ 99, and against `/users/7` there is no match);
a wildcard pattern matches exactly the paths whose trailing-slash-normalized
form starts with the stored prefix, binding the remainder of the normalized
path (including its leading slash) to the fixed capture name `wildcard`
(for `/files/*` against `/files/docs/readme.txt` the captured value is
`/docs/readme.txt`). -/
theorem pattern_matching_captures :
    (∀ (segs : List Segment) (path : Str),
      (pathSegments (normalizeTrailing path)).length ≠ segs.length →
      (Pattern.parameterized segs).matches path = none) ∧
    (∀ (segs : List Segment) (path : Str) (ps : PathParams),
      (Pattern.parameterized segs).matches path = some ps →
      List.Forall₂ (fun seg pseg => ∀ s, seg = Segment.static s → pseg = s)
        segs (pathSegments (normalizeTrailing path))) ∧
    (Pattern.parse "/users/:id/posts/:pid".toList).matches "/users/7/posts/99".toList
      = some [("id".toList, "7".toList), ("pid".toList, "99".toList)] ∧
    (Pattern.parse "/users/:id/posts/:pid".toList).matches "/users/7".toList = none ∧
    (∀ (pre path : Str),
      (Pattern.wildcard pre).matches path =
        (stripPre pre (normalizeTrailing path)).map (fun suffix => [(wildcardKey, suffix)])) ∧
    (∀ (pre s t : Str), stripPre pre s = some t ↔ s = pre ++ t) ∧
    (Pattern.parse "/files/*".toList).matches "/files/docs/readme.txt".toList
      = some [(wildcardKey, "/docs/readme.txt".toList)] := by
  refine ⟨?_, ?_, by decide, by decide, ?_, stripPre_eq_some_iff, by decide⟩
  · intro segs path hne
    rw [Pattern.matches, matchesBody]
    exact if_neg (fun h => hne h.symm)
  · intro segs path ps hm
    rw [Pattern.matches, matchesBody] at hm
    by_cases hlen : segs.length = (pathSegments (normalizeTrailing path)).length
    · rw [if_pos hlen] at hm
      exact matchSegments_static_agree segs _ [] ps hlen hm
    · rw [if_neg hlen] at hm
      cases hm
  · intro pre path
    rw [Pattern.matches, matchesBody]
    cases stripPre pre (normalizeTrailing path) with
    | none => rfl
    | some suffix =>
      simp [mapInsert]

/-- Witness for the amended C6: a one-capture pattern does not match a
one-segment-short path. -/
theorem pattern_matching_captures_witness :
    (Pattern.parameterized [Segment.static "users".toList,
      Segment.parameter "id".toList]).matches "/users".toList = none :=
  pattern_matching_captures.1
    [Segment.static "users".toList, Segment.parameter "id".toList]
    "/users".toList (by decide)

/-- Counterexample to claim C8 as stated: normalization strips only one
trailing slash, so for the pattern string `/a/` (its with-trailing-slash
form being `/a//`) the two compiled matchers disagree on the path `/a//`;
likewise the path `/a//` (a path with a trailing slash) matches the pattern
compiled from `/a//` while `/a/` (the same path without it) does not; and
the bare root path `/` matches the root pattern while the empty path does
not. -/
theorem trailing_slash_equiv_fails :
    ((Pattern.parse "/a//".toList).matches "/a//".toList = (some [] : Option PathParams) ∧
     (Pattern.parse "/a/".toList).matches "/a//".toList = none) ∧
    ((Pattern.parse "/a//".toList).matches "/a//".toList = (some [] : Option PathParams) ∧
     (Pattern.parse "/a//".toList).matches "/a/".toList = none) ∧
    ((Pattern.parse "/".toList).matches "/".toList = (some [] : Option PathParams) ∧
     (Pattern.parse "/".toList).matches "".toList = none) :=
  ⟨⟨by decide, by decide⟩, ⟨by decide, by decide⟩, by decide, by decide⟩

/-- Claim C8 (amended): for every non-empty pattern or path string `s` that
does not already end in a slash, `Pattern::parse` compiles `s` with a
trailing slash appended and `s` itself to the same pattern (hence matchers
accepting identical path sets — in particular `/users/` and `/users` are
equivalent), and for every compiled pattern, the path `s` with a trailing
slash appended matches exactly when `s` itself does. -/
theorem trailing_slash_normalization_equiv (s : Str) (h1 : s ≠ [])
    (h2 : endsWithSlash s = false) :
    Pattern.parse (s ++ ['/']) = Pattern.parse s ∧
    ∀ p : Pattern, p.matches (s ++ ['/']) = p.matches s := by
  have hnorm1 : normalizeTrailing (s ++ ['/']) = s := by
    have he : endsWithSlash (s ++ ['/']) = true := by
      rw [endsWithSlash, List.getLast?_concat]
      rfl
    have hne : ((s ++ ['/']) != ['/']) = true := by
      rw [bne_iff_ne]
      intro hcontra
      have hlen := congrArg List.length hcontra
      rw [List.length_append] at hlen
      simp at hlen
      exact h1 hlen
    rw [normalizeTrailing, hne, he]
    simp
  have hnorm2 : normalizeTrailing s = s := by
    rw [normalizeTrailing, h2]
    simp
  constructor
  · rw [Pattern.parse, Pattern.parse, hnorm1, hnorm2]
  · intro p
    rw [Pattern.matches, Pattern.matches, hnorm1, hnorm2]

/-- Witness for the amended C8: `/users/` and `/users` compile to the same
pattern. -/
theorem trailing_slash_normalization_equiv_witness :
    Pattern.parse ("/users".toList ++ ['/']) = Pattern.parse "/users".toList :=
  (trailing_slash_normalization_equiv "/users".toList (by decide) (by decide)).1

/-- Claim C9: invoking the middleware cursor once it has reached the end of
the chain returns the `500 Internal Server Error` fallback response, for
every chain, cursor position at or past the end, context, and handler
semantics. -/
theorem next_run_exhausted {H : Type}
    (step : H → Context → NextState H → Response)
    (n : NextState H) (ctx : Context)
    (hexh : n.middlewares.length ≤ n.index) :
    NextState.run step n ctx =
      (Response.new .internalServerError).withBody
        "No response generated by middleware pipeline".toList ∧
    (NextState.run step n ctx).status = .internalServerError := by
  have hnot : ¬ n.index < n.middlewares.length := Nat.not_lt.mpr hexh
  constructor
  · rw [NextState.run, dif_neg hnot]
  · rw [NextState.run, dif_neg hnot]
    rfl

/-- Witness for C9: an empty chain at cursor 0 yields a 500 response. -/
theorem next_run_exhausted_witness :
    (NextState.run (fun _ _ _ => Response.new .ok)
      (⟨([] : List Unit), 0⟩) ⟨sampleRequest, []⟩).status = .internalServerError :=
  (next_run_exhausted (fun _ _ _ => Response.new .ok)
    ⟨([] : List Unit), 0⟩ ⟨sampleRequest, []⟩ (Nat.le_refl 0)).2

/-- Claim C10: the header-collection stage of `Request::parse` silently
drops every raw header whose value is not valid UTF-8 (the built map is the
map of exactly the decodable headers), and when the request-line fields are
present the request still parses successfully, with a name whose every
same-named raw header has a non-UTF-8 value absent from the parsed header
map. -/
theorem invalid_utf8_header_value_omitted :
    (∀ raw : List (Str × List Nat),
      buildHeaderMap raw =
        ⟨raw.filterMap (fun h => (utf8Decode h.2).map (fun v => (h.1, v)))⟩) ∧
    (∀ (raw : RawParsed) (body : List Nat) (name mStr pStr : Str) (v : Nat),
      raw.method = some mStr → raw.path = some pStr → raw.version = some v →
      (∀ h ∈ raw.headers, eqIgnoreAsciiCase h.1 name = true → utf8Decode h.2 = none) →
      assembleRequest raw body =
        some (requestFromParts (Method.fromStr mStr) pStr v
          (buildHeaderMap raw.headers) body) ∧
      (requestFromParts (Method.fromStr mStr) pStr v
          (buildHeaderMap raw.headers) body).headers.contains name = false) := by
  have hfold : ∀ (raw : List (Str × List Nat)) (acc : List (Str × Str)),
      raw.foldl
        (fun (m : Headers) (h : Str × List Nat) =>
          match utf8Decode h.2 with
          | some value => m.insert h.1 value
          | none => m)
        (⟨acc⟩ : Headers) =
      (⟨acc ++ raw.filterMap (fun h => (utf8Decode h.2).map (fun v => (h.1, v)))⟩ : Headers) := by
    intro raw
    induction raw with
    | nil =>
      intro acc
      simp
    | cons h t ih =>
      intro acc
      rw [List.foldl_cons, List.filterMap_cons]
      simp only [Headers.insert] at ih ⊢
      cases hdec : utf8Decode h.2 with
      | none =>
        simp only [hdec]
        exact ih acc
      | some value =>
        simp only [hdec]
        rw [ih (acc ++ [(h.1, value)])]
        simp
  constructor
  · intro raw
    rw [buildHeaderMap, Headers.new]
    exact hfold raw []
  · intro raw body name mStr pStr v hm hp hv hall
    constructor
    · rw [assembleRequest, hm, hp, hv]
    · rw [buildHeaderMap, Headers.new, hfold raw.headers [], requestFromParts]
      rw [Headers.contains]
      rw [List.any_eq_false]
      intro x hx
      rw [List.nil_append, List.mem_filterMap] at hx
      obtain ⟨a, ha, hdec⟩ := hx
      intro hcontra
      cases hdec2 : utf8Decode a.2 with
      | none =>
        rw [hdec2] at hdec
        cases hdec
      | some value =>
        rw [hdec2] at hdec
        have hx1 : x = (a.1, value) := by
          simpa using hdec.symm
        rw [hx1] at hcontra
        have hnone := hall a ha (by simpa using hcontra)
        simp [hnone] at hdec2

/-- Witness for C10: a single header `X-Bad` whose value is the invalid
UTF-8 byte `0xFF` is dropped, parsing succeeds, and `X-Bad` is absent. -/
theorem invalid_utf8_header_value_omitted_witness :
    assembleRequest ⟨some "GET".toList, some "/".toList, some 1,
        [("X-Bad".toList, [255])]⟩ [] =
      some (requestFromParts (Method.fromStr "GET".toList) "/".toList 1
        (buildHeaderMap [("X-Bad".toList, [255])]) []) ∧
    (requestFromParts (Method.fromStr "GET".toList) "/".toList 1
        (buildHeaderMap [("X-Bad".toList, [255])]) []).headers.contains
      "X-Bad".toList = false :=
  invalid_utf8_header_value_omitted.2
    ⟨some "GET".toList, some "/".toList, some 1, [("X-Bad".toList, [255])]⟩
    [] "X-Bad".toList "GET".toList "/".toList 1 rfl rfl rfl (by decide)

end Rttp
